import Mathlib

/-!
Shallow embedding of `src/element_moseq/kpms_pca.py` (element-moseq PCA
pipeline): the staged DataJoint pipeline PCATask → PCAPrep → PCAFitting →
LatentDimension, its key resolution, stage execution traces, and the
numeric computations of the `make` functions.
Numeric values that the Python code holds in `float`/`np.float64` are
modelled as exact rationals (`ℚ`); Python `int()` truncation is modelled
by `pyInt`.  External library calls (`setup_project`, `load_keypoints`,
`fit_pca`, ...) are modelled as observable effects in an execution trace,
with their success/failure and numeric outputs supplied as inputs to the
embedded `make` functions.
-/

namespace ElementMoseq

/-- Python `int(x)`: truncation toward zero, on exact rationals. -/
def pyInt (q : ℚ) : ℤ := if q < 0 then ⌈q⌉ else ⌊q⌋

/-- Index of the first element satisfying `p`, mirroring
`(mask).nonzero()[0].min()` on a NumPy boolean mask: `none` when the mask
is all-false (where NumPy raises on the empty reduction). -/
def npFirstTrueIdx {α : Type} (p : α → Bool) : List α → Option ℕ
  | [] => none
  | a :: rest => if p a then some 0 else (npFirstTrueIdx p rest).map (· + 1)

/-- `np.cumsum` on a rational list (used on `pca.explained_variance_ratio_`). -/
def cumsumAux (acc : ℚ) : List ℚ → List ℚ
  | [] => []
  | x :: xs => (acc + x) :: cumsumAux (acc + x) xs

/-- `np.cumsum l`. -/
def cumsum (l : List ℚ) : List ℚ := cumsumAux 0 l

/-- The `latent_dim_desc` strings built by `LatentDimension.make`, kept
symbolically (constructor + numeric payload) rather than as formatted
text: `allComponents p` stands for
"All components together only explain p% of variance.", and
`thresholdMet t n` for ">=t% of variance explained by n components.". -/
inductive LatentDimDesc : Type
  | allComponents (percentage : ℚ)
  | thresholdMet (threshold_pct : ℚ) (components : ℕ)
deriving DecidableEq

/-- A row of the `LatentDimension` table (non-key attributes). -/
structure LatentDimRow : Type where
  variance_percentage : ℚ
  latent_dimension : ℕ
  latent_dim_desc : LatentDimDesc
deriving DecidableEq

/-- The hard-coded `variance_threshold = 0.90` of `LatentDimension.make`. -/
def variance_threshold : ℚ := 90 / 100

/-- `LatentDimension.make`, lines 442-465 of `kpms_pca.py`, as a function
of the cumulative explained-variance sequence `cs = np.cumsum(...)`.
Returns `none` where the Python code raises before `insert1`:
on empty `cs` (`cs[-1]` raises `IndexError`), and in the `else` branch
when no entry strictly exceeds the threshold
(`(cs > t).nonzero()[0].min()` raises on an empty index set). -/
def LatentDimension.make (cs : List ℚ) : Option LatentDimRow :=
  match cs.getLast? with
  | none => none
  | some last =>
    if last < variance_threshold then
      some { variance_percentage := last * 100
             latent_dimension := cs.length
             latent_dim_desc := .allComponents (last * 100) }
    else
      match npFirstTrueIdx (fun c => variance_threshold < c) cs with
      | none => none
      | some i =>
        some { variance_percentage := variance_threshold * 100
               latent_dimension := i + 1
               latent_dim_desc := .thresholdMet (variance_threshold * 100) (i + 1) }

/-! ### The `PCATask` table declaration (lines 196-210) -/

/-- A row of the manual `PCATask` table: the primary key inherited from
`-> Bodyparts` (`kpset_id`, `bodyparts_id`) plus the single non-key
attribute `kpms_project_output_dir`.  The declaration has no further
attribute. -/
structure PCATaskRow : Type where
  kpset_id : ℕ
  bodyparts_id : ℕ
  kpms_project_output_dir : String
deriving DecidableEq

/-- The attribute names of the `PCATask` definition string, lines
206-210 of `kpms_pca.py`: the foreign key `-> Bodyparts` contributes the
primary-key attributes `kpset_id` and `bodyparts_id`, and the only
declared secondary attribute is `kpms_project_output_dir`. -/
def PCATask.attributeNames : List String :=
  ["kpset_id", "bodyparts_id", "kpms_project_output_dir"]

/-! ### The `PCAPrep.make` computation (lines 237-333) -/

/-- Externally observable actions of `PCAPrep.make`, in the order the
source executes them: `setup_project` (creates the project directory and
writes the default `config.yml`), `load_config` (reads it back),
`generate_kpms_dj_config` (writes `kpms_dj_config.yml`), `load_keypoints`
(reads keypoint files), one `readVideoMeta` per video (the
`cv2.VideoCapture` frame-rate probe), and the final `insert1`. -/
inductive PrepEffect : Type
  | setupProject
  | loadConfigFile
  | generateDjConfig
  | loadKeypoints
  | readVideoMeta
  | insertRow
deriving DecidableEq

/-- What the environment yields for one `KeypointSet.VideoFile` row:
whether `find_full_path` resolves its `video_path`, and the frame rate
`cv2.CAP_PROP_FPS` reported for the resolved file. -/
structure VideoInput : Type where
  pathFound : Bool
  fps : ℚ
deriving DecidableEq

/-- The data `PCAPrep.make` fetches and the environment facts it hits:
`format_method` from the `KeypointSet` parent, whether `find_full_path`
resolves `kpset_config_dir` and `kpset_videos_dir`, and the per-video
inputs for the `KeypointSet.VideoFile` rows of the key. -/
structure PrepInput : Type where
  format_method : String
  configDirFound : Bool
  videosDirFound : Bool
  videos : List VideoInput
deriving DecidableEq

/-- The numeric part of a `PCAPrep` row (non-key attributes).  The
`coordinates`/`confidences`/`formatted_bodyparts` blobs are outputs of the
external `load_keypoints` call and carry no structure used by any claim,
so they are not modelled. -/
structure PrepRow : Type where
  frame_rates : List ℤ
  average_frame_rate : ℤ
deriving DecidableEq

/-- The frame-rate loop of `PCAPrep.make` (lines 316-321): per video,
`find_full_path` (raises when the path does not resolve, truncating the
run) then a `cv2.VideoCapture` probe appending `int(cap.get(FPS))`.
Returns the effects of the completed iterations and, unless a path
failed to resolve, the accumulated `fps_list`. -/
def fpsLoop : List VideoInput → List PrepEffect × Option (List ℤ)
  | [] => ([], some [])
  | v :: rest =>
    if v.pathFound then
      let r := fpsLoop rest
      (.readVideoMeta :: r.1, r.2.map (pyInt v.fps :: ·))
    else ([], none)

/-- `PCAPrep.make`, lines 237-333 of `kpms_pca.py`, as the ordered trace
of external effects it performs together with the row it inserts
(`none` where the Python code raises before reaching `insert1`):
1. `find_full_path` on the config and videos directories (raises when
   unresolved, before any effect);
2. `setup_project`, `load_config`, `generate_kpms_dj_config` —
   unconditionally, before the format check;
3. the `format_method` check: only "deeplabcut" proceeds to
   `load_keypoints`; any other value raises `NotImplementedError`;
4. the per-video frame-rate loop;
5. `average_frame_rate = int(np.mean(fps_list))` — `np.mean` of an empty
   list is NaN and `int(nan)` raises, so an empty video set aborts;
6. `insert1`. -/
def PCAPrep.make (inp : PrepInput) : List PrepEffect × Option PrepRow :=
  if inp.configDirFound = false then ([], none)
  else if inp.videosDirFound = false then ([], none)
  else
    if inp.format_method = "deeplabcut" then
      match (fpsLoop inp.videos).2 with
      | none =>
        ([.setupProject, .loadConfigFile, .generateDjConfig, .loadKeypoints]
            ++ (fpsLoop inp.videos).1, none)
      | some fpsList =>
        if fpsList.length = 0 then
          ([.setupProject, .loadConfigFile, .generateDjConfig, .loadKeypoints]
              ++ (fpsLoop inp.videos).1, none)
        else
          ([.setupProject, .loadConfigFile, .generateDjConfig, .loadKeypoints]
              ++ (fpsLoop inp.videos).1 ++ [.insertRow],
            some { frame_rates := fpsList
                   average_frame_rate :=
                     pyInt ((fpsList.map (fun z => (z : ℚ))).sum / fpsList.length) })
    else ([.setupProject, .loadConfigFile, .generateDjConfig], none)

/-! ### Claim C3: failure ordering for unsupported `format_method` -/

/-- A `PCAPrep.make` input with an unsupported pose-estimation format
(`"sleap"`), resolvable directories and one resolvable video. -/
def prepInputSleap : PrepInput :=
  { format_method := "sleap"
    configDirFound := true
    videosDirFound := true
    videos := [{ pathFound := true, fps := 30 }] }

/-! ### Claim C9: the frame-rate average -/

/-- A `PCAPrep.make` input with two resolvable videos at 30 and 31
frames per second. -/
def prepInputC9 : PrepInput :=
  { format_method := "deeplabcut"
    configDirFound := true
    videosDirFound := true
    videos := [{ pathFound := true, fps := 30 }, { pathFound := true, fps := 31 }] }

/-! ### The entity store: the tables declared in `kpms_pca.py` -/

/-- A row of the manual `KeypointSet` table, together with the
environment facts `PCAPrep.make` hits for it: whether `find_full_path`
resolves `kpset_config_dir` and `kpset_videos_dir`. -/
structure KeypointSetRow : Type where
  kpset_id : ℕ
  format_method : String
  configDirFound : Bool
  videosDirFound : Bool
deriving DecidableEq

/-- A row of the `KeypointSet.VideoFile` part table, with the
environment facts for its `video_path`: whether `find_full_path`
resolves it and the frame rate `cv2` reports. -/
structure VideoFileRow : Type where
  kpset_id : ℕ
  video_id : ℕ
  pathFound : Bool
  fps : ℚ
deriving DecidableEq

/-- A row of the manual `Bodyparts` table (primary key only; its blob
attributes feed only the external config generation). -/
structure BodypartsRow : Type where
  kpset_id : ℕ
  bodyparts_id : ℕ
deriving DecidableEq

/-- The primary key shared by `PCATask`, `PCAPrep`, `PCAFitting` and
`LatentDimension`: `(kpset_id, bodyparts_id)`, inherited from
`Bodyparts`. -/
abbrev PrepKey := ℕ × ℕ

/-- A row of the `PCAFitting` table (non-key attribute): the
`pca_fitting_time` timestamp. -/
structure FitRow : Type where
  pca_fitting_time : ℕ
deriving DecidableEq

/-- The entity store: one list of rows per table of the schema. -/
structure Store : Type where
  keypointSets : List KeypointSetRow
  videoFiles : List VideoFileRow
  bodyparts : List BodypartsRow
  pcaTasks : List PCATaskRow
  pcaPreps : List (PrepKey × PrepRow)
  pcaFittings : List (PrepKey × FitRow)
  latentDims : List (PrepKey × LatentDimRow)
deriving DecidableEq

/-- The primary keys of the `PCATask` rows. -/
def taskKeys (s : Store) : List PrepKey :=
  s.pcaTasks.map (fun t => (t.kpset_id, t.bodyparts_id))

/-- The primary keys of the `PCAPrep` rows. -/
def prepKeys (s : Store) : List PrepKey := s.pcaPreps.map Prod.fst

/-- The primary keys of the `PCAFitting` rows. -/
def fitKeys (s : Store) : List PrepKey := s.pcaFittings.map Prod.fst

/-- The primary keys of the `LatentDimension` rows. -/
def latentKeys (s : Store) : List PrepKey := s.latentDims.map Prod.fst

/-- The upstream data `PCAPrep.make` fetches for a key: the parent
`KeypointSet` row restricted by the key (`fetch1`, `none` when absent)
and the `KeypointSet.VideoFile` rows of that key (`fetch`, possibly
empty). -/
def prepInput (s : Store) (k : PrepKey) : Option PrepInput :=
  (s.keypointSets.find? (fun r => r.kpset_id == k.1)).map (fun ks =>
    { format_method := ks.format_method
      configDirFound := ks.configDirFound
      videosDirFound := ks.videosDirFound
      videos := (s.videoFiles.filter (fun v => v.kpset_id == k.1)).map
        (fun v => { pathFound := v.pathFound, fps := v.fps }) })

/-! ### Key resolvers and stage executors -/

/-- Modelled from the spec: the Key Resolver of the Prep stage
(spec 4.1, "key source minus already-computed keys").  `PCAPrep`
declares no custom key source in the source, so the key source is its
sole foreign-key parent `PCATask`; the resolver returns the `PCATask`
keys not yet present in `PCAPrep`. -/
def keySourcePrep (s : Store) : List PrepKey :=
  (taskKeys s).filter (fun k => !(decide (k ∈ prepKeys s)))

/-- Modelled from the spec: the Key Resolver of the fitting stage —
parent `PCAPrep` minus already-computed `PCAFitting` keys. -/
def keySourceFit (s : Store) : List PrepKey :=
  (prepKeys s).filter (fun k => !(decide (k ∈ fitKeys s)))

/-- Modelled from the spec: the Key Resolver of the latent-dimension
stage — parent `PCAFitting` minus already-computed `LatentDimension`
keys. -/
def keySourceLatent (s : Store) : List PrepKey :=
  (fitKeys s).filter (fun k => !(decide (k ∈ latentKeys s)))

/-- Modelled from the spec: the Stage Executor (spec 4.2) at the Prep
stage — fetch the upstream attributes, run `PCAPrep.make`, and insert
the produced row; when the computation raises (no row), the store is
left unchanged and the failure is isolated to this key. -/
def runPrepStage (s : Store) (k : PrepKey) : Store :=
  match prepInput s k with
  | none => s
  | some inp =>
    match (PCAPrep.make inp).2 with
    | some row => { s with pcaPreps := s.pcaPreps ++ [(k, row)] }
    | none => s

/-- Externally observable actions of `PCAFitting.make`, in source order:
`load_kpms_dj_config`, `format_data`, `fit_pca`, `save_pca` (writes
`pca.p` to the output directory), then `insert1`. -/
inductive FitEffect : Type
  | loadDjConfig
  | formatDataCall
  | fitPcaCall
  | savePca
  | insertRow
deriving DecidableEq

/-- `PCAFitting.make`, lines 351-389 of `kpms_pca.py`: the ordered trace
of its external calls and the inserted timestamp row.  The fallible
external calls (`load_kpms_dj_config` on a missing config, `format_data`,
`fit_pca`) are summarized by the success flag `ok` — on failure the make
raises before any effectful write and inserts nothing — and
`datetime.now(timezone.utc)` is supplied as `now`. -/
def PCAFitting.make (ok : Bool) (now : ℕ) : List FitEffect × Option FitRow :=
  if ok then
    ([.loadDjConfig, .formatDataCall, .fitPcaCall, .savePca, .insertRow],
      some { pca_fitting_time := now })
  else ([], none)

/-- Run-invariant environment facts for the fitting and latent stages,
keyed by the task key owning the output directory: whether the fitting
stage's external calls succeed, the clock, and the explained-variance
ratios of the `pca.p` artifact (`none` when `load_pca` raises). -/
structure Env : Type where
  fitOk : PrepKey → Bool
  now : ℕ
  explainedVarianceRatio : PrepKey → Option (List ℚ)

/-- Modelled from the spec: the Stage Executor at the fitting stage —
`fetch1` on the upstream `PCAPrep` row, run `PCAFitting.make`, insert on
success, keep the store unchanged on failure. -/
def runFitStage (env : Env) (s : Store) (k : PrepKey) : Store :=
  match s.pcaPreps.find? (fun p => p.1 == k) with
  | none => s
  | some _ =>
    match (PCAFitting.make (env.fitOk k) env.now).2 with
    | some row => { s with pcaFittings := s.pcaFittings ++ [(k, row)] }
    | none => s

/-- Modelled from the spec: the Stage Executor at the latent-dimension
stage — `load_pca` from the output directory (raises when absent), run
`LatentDimension.make` on `np.cumsum(pca.explained_variance_ratio_)`,
insert on success. -/
def runLatentStage (env : Env) (s : Store) (k : PrepKey) : Store :=
  match env.explainedVarianceRatio k with
  | none => s
  | some evr =>
    match LatentDimension.make (cumsum evr) with
    | some row => { s with latentDims := s.latentDims ++ [(k, row)] }
    | none => s

/-- Modelled from the spec: one Population-Driver pass over the Prep
stage — the Stage Executor is invoked once per key returned by the Key
Resolver. -/
def prepPass (s : Store) : Store := (keySourcePrep s).foldl runPrepStage s

/-- Modelled from the spec: one Population-Driver pass over the fitting
stage. -/
def fitPass (env : Env) (s : Store) : Store :=
  (keySourceFit s).foldl (runFitStage env) s

/-- Modelled from the spec: one Population-Driver pass over the
latent-dimension stage. -/
def latentPass (env : Env) (s : Store) : Store :=
  (keySourceLatent s).foldl (runLatentStage env) s

/-- Modelled from the spec: the Population Driver (spec 4.3) — for each
stage in dependency order (Prep, then Fit, then LatentDimension), ask
the Key Resolver for the pending keys and invoke the Stage Executor once
per key; a failing key leaves the store unchanged and does not abort the
pass. -/
def populateOnce (env : Env) (s : Store) : Store :=
  latentPass env (fitPass env (prepPass s))

/-! ### Claim C4: eligibility of childless KeypointSets -/

/-- A store with one `KeypointSet` (id 1) that has zero
`KeypointSet.VideoFile` child rows, one `Bodyparts` selection for it,
and one `PCATask`; no derived rows yet. -/
def storeNoVideos : Store :=
  { keypointSets := [{ kpset_id := 1, format_method := "deeplabcut",
                       configDirFound := true, videosDirFound := true }]
    videoFiles := []
    bodyparts := [{ kpset_id := 1, bodyparts_id := 1 }]
    pcaTasks := [{ kpset_id := 1, bodyparts_id := 1, kpms_project_output_dir := "" }]
    pcaPreps := []
    pcaFittings := []
    latentDims := [] }

/-! ### Claim C8: idempotence of the Population Driver

The failure of a stage computation for a key is a function of the data
the computation reads — the manual tables and the run-invariant
environment — none of which a population pass modifies.  The lemmas
below capture, per stage: (1) the executor either leaves the store
unchanged or appends exactly its own row; (2) after a pass, every key
the resolver offered is either computed or fails; (3) a pass over keys
that all fail is the identity. -/

/-- The Prep computation fails for key `k` in store `s` (no row can be
produced: either the `fetch1` on `KeypointSet` finds nothing or
`PCAPrep.make` raises). -/
def prepFails (s : Store) (k : PrepKey) : Prop :=
  ∀ inp, prepInput s k = some inp → (PCAPrep.make inp).2 = none

/-- The fitting computation fails for key `k` (its upstream `PCAPrep`
row is absent, or an external call raises). -/
def fitFails (env : Env) (s : Store) (k : PrepKey) : Prop :=
  (s.pcaPreps.find? (fun p => p.1 == k)).isSome →
    (PCAFitting.make (env.fitOk k) env.now).2 = none

/-- The latent-dimension computation fails for key `k` (`load_pca`
raises, or `LatentDimension.make` raises); depends only on the
run-invariant environment. -/
def latentFails (env : Env) (k : PrepKey) : Prop :=
  ∀ evr, env.explainedVarianceRatio k = some evr →
    LatentDimension.make (cumsum evr) = none

/-! ### Characterization of `npFirstTrueIdx` -/

theorem npFirstTrueIdx_spec {α : Type} (p : α → Bool) :
    ∀ (l : List α) (i : ℕ), npFirstTrueIdx p l = some i →
      ∃ hi : i < l.length, p (l.get ⟨i, hi⟩) = true ∧
        ∀ j (hj : j < i), p (l.get ⟨j, hj.trans hi⟩) = false := by
  intro l
  induction l with
  | nil => intro i h; simp [npFirstTrueIdx] at h
  | cons a rest ih =>
    intro i h
    by_cases hp : p a = true
    · simp [npFirstTrueIdx, hp] at h
      subst h
      exact ⟨Nat.succ_pos _, hp, fun j hj => absurd hj (Nat.not_lt_zero j)⟩
    · simp only [npFirstTrueIdx, hp] at h
      cases hr : npFirstTrueIdx p rest with
      | none => rw [hr] at h; simp at h
      | some i' =>
        rw [hr] at h
        obtain rfl : i' + 1 = i := by simpa using h
        obtain ⟨hi, hpi, hfirst⟩ := ih i' hr
        refine ⟨Nat.succ_lt_succ hi, hpi, ?_⟩
        intro j hj
        match j with
        | 0 => simpa using hp
        | j' + 1 => exact hfirst j' (Nat.lt_of_succ_lt_succ hj)

theorem npFirstTrueIdx_eq_none_iff {α : Type} (p : α → Bool) :
    ∀ l : List α, npFirstTrueIdx p l = none ↔ ∀ a ∈ l, p a = false := by
  intro l
  induction l with
  | nil => simp [npFirstTrueIdx]
  | cons a rest ih =>
    by_cases hp : p a = true
    · simp [npFirstTrueIdx, hp]
    · simp only [Bool.not_eq_true] at hp
      simp [npFirstTrueIdx, hp, Option.map_eq_none', ih]

/-! ### Claims C1, C2, C10: the `LatentDimension.make` numeric policy -/

/-- C1 counterexample: for `cs = [0.9]` the final cumulative value is not
below the threshold `0.90` (the claim's hypothesis holds), yet the
computation does not set any row: the `else` branch's
`(cs > t).nonzero()[0].min()` reduces over an empty index set and raises,
so `make` produces no row (`none`), refuting the claim as universally
stated over all `cs` with `cs[-1] ≥ t`. -/
theorem latentDimension_make_crashes_at_exact_threshold :
    ¬ ((9/10 : ℚ) < variance_threshold) ∧
    ([(9/10 : ℚ)].getLast? = some (9/10)) ∧
    LatentDimension.make [(9/10 : ℚ)] = none := by
  norm_num [LatentDimension.make, npFirstTrueIdx, variance_threshold, List.getLast?]

/-- C1 (amended): for every cumulative-variance sequence `cs` whose final
value strictly exceeds the threshold `t = 0.90`, `LatentDimension.make`
sets `latent_dimension` to the 1-indexed position of the first component
at which the cumulative variance strictly exceeds `t` (strict `>`) and
`variance_percentage` to exactly `t*100 = 90`; in particular for
`cs = [0.5, 0.75, 0.92, 0.97]` it returns `latent_dimension = 3` and
`variance_percentage = 90`. -/
theorem latentDimension_first_exceeding_component :
    (∀ (cs : List ℚ) (last : ℚ), cs.getLast? = some last →
      variance_threshold < last →
      ∃ (i : ℕ) (hi : i < cs.length),
        variance_threshold < cs.get ⟨i, hi⟩ ∧
        (∀ j (hj : j < i), cs.get ⟨j, hj.trans hi⟩ ≤ variance_threshold) ∧
        LatentDimension.make cs =
          some { variance_percentage := 90
                 latent_dimension := i + 1
                 latent_dim_desc := .thresholdMet 90 (i + 1) }) ∧
    LatentDimension.make [1/2, 3/4, 92/100, 97/100] =
      some { variance_percentage := 90
             latent_dimension := 3
             latent_dim_desc := .thresholdMet 90 3 } := by
  constructor
  · intro cs last hlast hgt
    have hmem : last ∈ cs := by
      obtain ⟨ys, rfl⟩ := List.getLast?_eq_some_iff.mp hlast
      exact List.mem_append_right ys (List.mem_singleton_self last)
    cases hidx : npFirstTrueIdx (fun c => variance_threshold < c) cs with
    | none =>
      exfalso
      have hall := (npFirstTrueIdx_eq_none_iff _ cs).mp hidx last hmem
      exact absurd hgt (by simpa using hall)
    | some i =>
      obtain ⟨hi, hpi, hfirst⟩ := npFirstTrueIdx_spec _ cs i hidx
      refine ⟨i, hi, by simpa using hpi, ?_, ?_⟩
      · intro j hj
        exact not_lt.mp (by simpa using hfirst j hj)
      · simp only [LatentDimension.make, hlast]
        rw [if_neg (not_lt.mpr hgt.le), hidx]
        norm_num [variance_threshold]
  · norm_num [LatentDimension.make, npFirstTrueIdx, variance_threshold, List.getLast?]

/-- C1 witness: the universal part of the amended claim applied at the
concrete sequence `cs = [0.5, 0.75, 0.92, 0.97]`. -/
theorem latentDimension_first_exceeding_component_witness :
    ∃ (i : ℕ) (hi : i < ([1/2, 3/4, 92/100, 97/100] : List ℚ).length),
      variance_threshold < ([1/2, 3/4, 92/100, 97/100] : List ℚ).get ⟨i, hi⟩ ∧
      (∀ j (hj : j < i),
        ([1/2, 3/4, 92/100, 97/100] : List ℚ).get ⟨j, hj.trans hi⟩ ≤ variance_threshold) ∧
      LatentDimension.make [1/2, 3/4, 92/100, 97/100] =
        some { variance_percentage := 90
               latent_dimension := i + 1
               latent_dim_desc := .thresholdMet 90 (i + 1) } :=
  latentDimension_first_exceeding_component.1 [1/2, 3/4, 92/100, 97/100] (97/100)
    (by norm_num [List.getLast?]) (by norm_num [variance_threshold])

/-- C2: for every cumulative-variance sequence `cs` whose final value is
strictly below the threshold `0.90`, `LatentDimension.make` sets
`latent_dimension` to `len(cs)`, `variance_percentage` to `cs[-1]*100`,
and the description states that all components together explain only
that percentage; in particular for `cs = [0.3, 0.5]` it returns
`latent_dimension = 2` and `variance_percentage = 50`. -/
theorem latentDimension_below_threshold_all_components :
    (∀ (cs : List ℚ) (last : ℚ), cs.getLast? = some last →
      last < variance_threshold →
      LatentDimension.make cs =
        some { variance_percentage := last * 100
               latent_dimension := cs.length
               latent_dim_desc := .allComponents (last * 100) }) ∧
    LatentDimension.make [3/10, 1/2] =
      some { variance_percentage := 50
             latent_dimension := 2
             latent_dim_desc := .allComponents 50 } := by
  constructor
  · intro cs last hlast hlt
    simp only [LatentDimension.make, hlast]
    rw [if_pos hlt]
  · norm_num [LatentDimension.make, npFirstTrueIdx, variance_threshold, List.getLast?]

/-- C2 witness: the universal part applied at `cs = [0.3, 0.5]`. -/
theorem latentDimension_below_threshold_all_components_witness :
    LatentDimension.make [3/10, 1/2] =
      some { variance_percentage := (1/2 : ℚ) * 100
             latent_dimension := ([3/10, 1/2] : List ℚ).length
             latent_dim_desc := .allComponents ((1/2 : ℚ) * 100) } :=
  latentDimension_below_threshold_all_components.1 [3/10, 1/2] (1/2)
    (by norm_num [List.getLast?]) (by norm_num [variance_threshold])

/-- C10: invariants of every row actually inserted by
`LatentDimension.make` on a non-empty cumulative-variance sequence:
`variance_percentage ≤ 90`, with equality exactly when `cs[-1] ≥ 0.90`
(and `variance_percentage = cs[-1]*100 < 90` otherwise), and
`1 ≤ latent_dimension ≤ len(cs)`; the threshold `0.90` is the hard-coded
`variance_threshold`, not a per-row parameter of `make`. -/
theorem latentDimension_row_invariants :
    ∀ (cs : List ℚ) (last : ℚ) (row : LatentDimRow),
      cs.getLast? = some last →
      LatentDimension.make cs = some row →
      row.variance_percentage ≤ 90 ∧
      (variance_threshold ≤ last → row.variance_percentage = 90) ∧
      (last < variance_threshold →
        row.variance_percentage = last * 100 ∧ row.variance_percentage < 90) ∧
      1 ≤ row.latent_dimension ∧ row.latent_dimension ≤ cs.length := by
  intro cs last row hlast hmake
  have hne : cs ≠ [] := by
    intro h; subst h; simp at hlast
  by_cases hlt : last < variance_threshold
  · simp only [LatentDimension.make, hlast, if_pos hlt] at hmake
    obtain rfl : _ = row := Option.some.inj hmake
    have h90 : last * 100 < 90 := by
      have := hlt
      rw [variance_threshold] at this
      linarith
    refine ⟨h90.le, ?_, fun _ => ⟨rfl, h90⟩, ?_, le_rfl⟩
    · intro hge
      exact absurd (lt_of_le_of_lt hge hlt) (lt_irrefl _)
    · exact List.length_pos.mpr hne
  · simp only [LatentDimension.make, hlast, if_neg hlt] at hmake
    cases hidx : npFirstTrueIdx (fun c => variance_threshold < c) cs with
    | none => rw [hidx] at hmake; exact absurd hmake (by simp)
    | some i =>
      rw [hidx] at hmake
      obtain rfl : _ = row := Option.some.inj hmake
      obtain ⟨hi, -, -⟩ := npFirstTrueIdx_spec _ cs i hidx
      have h90 : variance_threshold * 100 = (90 : ℚ) := by
        norm_num [variance_threshold]
      refine ⟨le_of_eq h90, fun _ => h90, fun h => absurd h hlt, ?_, ?_⟩
      · exact Nat.succ_le_succ (Nat.zero_le i)
      · exact Nat.succ_le_of_lt hi

/-- C10 witness: the invariants at the concrete sequence
`cs = [0.5, 0.75, 0.92, 0.97]` and its inserted row. -/
theorem latentDimension_row_invariants_witness :
    (LatentDimRow.mk 90 3 (.thresholdMet 90 3)).variance_percentage ≤ 90 ∧
    (variance_threshold ≤ (97/100 : ℚ) →
      (LatentDimRow.mk 90 3 (.thresholdMet 90 3)).variance_percentage = 90) ∧
    ((97/100 : ℚ) < variance_threshold →
      (LatentDimRow.mk 90 3 (.thresholdMet 90 3)).variance_percentage = (97/100 : ℚ) * 100 ∧
      (LatentDimRow.mk 90 3 (.thresholdMet 90 3)).variance_percentage < 90) ∧
    1 ≤ (LatentDimRow.mk 90 3 (.thresholdMet 90 3)).latent_dimension ∧
    (LatentDimRow.mk 90 3 (.thresholdMet 90 3)).latent_dimension ≤
      ([1/2, 3/4, 92/100, 97/100] : List ℚ).length :=
  latentDimension_row_invariants [1/2, 3/4, 92/100, 97/100] (97/100)
    (LatentDimRow.mk 90 3 (.thresholdMet 90 3))
    (by norm_num [List.getLast?])
    (by norm_num [LatentDimension.make, npFirstTrueIdx, variance_threshold, List.getLast?])

/-- Every effect emitted by the frame-rate loop is a `readVideoMeta`. -/
theorem mem_fpsLoop_trace {e : PrepEffect} :
    ∀ vs : List VideoInput, e ∈ (fpsLoop vs).1 → e = .readVideoMeta := by
  intro vs
  induction vs with
  | nil => simp [fpsLoop]
  | cons v rest ih =>
    cases hp : v.pathFound with
    | false => simp [fpsLoop, hp]
    | true =>
      simp only [fpsLoop, hp, if_true]
      intro h
      rcases List.mem_cons.mp h with h | h
      · exact h
      · exact ih h

/-- When the frame-rate loop completes, the accumulated `fps_list` is the
per-video truncated frame rate, in video order. -/
theorem fpsLoop_some_eq :
    ∀ (vs : List VideoInput) (l : List ℤ), (fpsLoop vs).2 = some l →
      l = vs.map (fun v => pyInt v.fps) := by
  intro vs
  induction vs with
  | nil =>
    intro l h
    simp only [fpsLoop] at h
    simp [← Option.some.inj h]
  | cons v rest ih =>
    intro l h
    cases hp : v.pathFound with
    | false => simp [fpsLoop, hp] at h
    | true =>
      simp only [fpsLoop, hp, if_true] at h
      cases hr : (fpsLoop rest).2 with
      | none => rw [hr] at h; simp at h
      | some l' =>
        rw [hr] at h
        simp only [Option.map_some'] at h
        rw [← Option.some.inj h, ih l' hr]
        simp

/-- The `insert1` effect is in the trace of `PCAPrep.make` exactly when a
row was produced: the code reaches `insert1` only after every fallible
step has succeeded. -/
theorem pcaPrep_make_insert_mem (inp : PrepInput) :
    PrepEffect.insertRow ∈ (PCAPrep.make inp).1 ↔ (PCAPrep.make inp).2 ≠ none := by
  have nomem : PrepEffect.insertRow ∉
      ([PrepEffect.setupProject, PrepEffect.loadConfigFile, PrepEffect.generateDjConfig,
          PrepEffect.loadKeypoints] ++ (fpsLoop inp.videos).1) := by
    intro hmem
    rcases List.mem_append.mp hmem with hm | hm
    · simp at hm
    · exact absurd (mem_fpsLoop_trace inp.videos hm) (by simp)
  unfold PCAPrep.make
  split
  · simp
  · split
    · simp
    · split
      · split
        · exact iff_of_false nomem (by simp)
        · split
          · exact iff_of_false nomem (by simp)
          · simp
      · simp

/-- On success, the trace of `PCAPrep.make` is its side effects followed
by the single final `insert1`. -/
theorem pcaPrep_make_some_shape (inp : PrepInput) :
    ∀ row : PrepRow, (PCAPrep.make inp).2 = some row →
      ∃ pre, (PCAPrep.make inp).1 = pre ++ [PrepEffect.insertRow] ∧
        PrepEffect.insertRow ∉ pre ∧
        PrepEffect.setupProject ∈ pre ∧ PrepEffect.generateDjConfig ∈ pre := by
  have nomem : PrepEffect.insertRow ∉
      ([PrepEffect.setupProject, PrepEffect.loadConfigFile, PrepEffect.generateDjConfig,
          PrepEffect.loadKeypoints] ++ (fpsLoop inp.videos).1) := by
    intro hmem
    rcases List.mem_append.mp hmem with hm | hm
    · simp at hm
    · exact absurd (mem_fpsLoop_trace inp.videos hm) (by simp)
  unfold PCAPrep.make
  split
  · intro row h; exact absurd h (by simp)
  · split
    · intro row h; exact absurd h (by simp)
    · split
      · split
        · intro row h; exact absurd h (by simp)
        · split
          · intro row h; exact absurd h (by simp)
          · intro row _
            exact ⟨_, rfl, nomem, by simp, by simp⟩
      · intro row h; exact absurd h (by simp)

/-- C3 counterexample: with `format_method = "sleap"` the computation
does fail (no row is produced), but `setup_project` and
`generate_kpms_dj_config` — file-mutating steps — have already executed
before the failure, refuting "fails before the project setup [and]
config generation steps run". -/
theorem pcaPrep_make_mutates_before_format_check :
    (PCAPrep.make prepInputSleap).2 = none ∧
    PrepEffect.setupProject ∈ (PCAPrep.make prepInputSleap).1 ∧
    PrepEffect.generateDjConfig ∈ (PCAPrep.make prepInputSleap).1 := by
  have h : PCAPrep.make prepInputSleap =
      ([.setupProject, .loadConfigFile, .generateDjConfig], none) := by
    simp [PCAPrep.make, prepInputSleap]
  rw [h]
  simp

/-- C3 (amended): for every input whose `format_method` is not
"deeplabcut" (with resolvable directories), `PCAPrep.make` raises
`NotImplementedError` before keypoint loading and before any entity-store
mutation — its trace is exactly `setup_project`, `load_config`,
`generate_kpms_dj_config` and no row is produced — but the project-setup
and config-generation file mutations have already occurred by then. -/
theorem pcaPrep_make_unsupported_format_trace :
    ∀ inp : PrepInput, inp.format_method ≠ "deeplabcut" →
      inp.configDirFound = true → inp.videosDirFound = true →
      PCAPrep.make inp =
        ([.setupProject, .loadConfigFile, .generateDjConfig], none) ∧
      PrepEffect.loadKeypoints ∉
        [PrepEffect.setupProject, PrepEffect.loadConfigFile, PrepEffect.generateDjConfig] ∧
      PrepEffect.insertRow ∉
        [PrepEffect.setupProject, PrepEffect.loadConfigFile, PrepEffect.generateDjConfig] := by
  intro inp hfm hc hv
  refine ⟨?_, by simp, by simp⟩
  unfold PCAPrep.make
  rw [if_neg (by simp [hc]), if_neg (by simp [hv]), if_neg hfm]

/-- C3 witness: the amended claim at the concrete `"sleap"` input. -/
theorem pcaPrep_make_unsupported_format_trace_witness :
    PCAPrep.make prepInputSleap =
      ([.setupProject, .loadConfigFile, .generateDjConfig], none) ∧
    PrepEffect.loadKeypoints ∉
      [PrepEffect.setupProject, PrepEffect.loadConfigFile, PrepEffect.generateDjConfig] ∧
    PrepEffect.insertRow ∉
      [PrepEffect.setupProject, PrepEffect.loadConfigFile, PrepEffect.generateDjConfig] :=
  pcaPrep_make_unsupported_format_trace prepInputSleap (by simp [prepInputSleap]) rfl rfl

/-! ### Claim C6: the `PCATask` schema and the config path -/

/-- C6 counterexample: the `PCATask` declaration carries no mode flag at
all — its attributes are exactly the `Bodyparts` key and the output
directory, and no `task_mode` attribute exists. -/
theorem pcaTask_has_no_mode_flag :
    "task_mode" ∉ PCATask.attributeNames ∧
    PCATask.attributeNames = ["kpset_id", "bodyparts_id", "kpms_project_output_dir"] := by
  refine ⟨?_, rfl⟩
  intro h
  simp [PCATask.attributeNames] at h

/-- C6 (amended): every `PCATask` row carries only its `Bodyparts` key
and an output directory — there is no `{load, trigger}` mode flag — and
the Prep stage does not branch on any such flag: it unconditionally
generates a fresh configuration artifact (`generate_kpms_dj_config`)
whenever the directories resolve. -/
theorem pcaTask_attributes_and_unconditional_config :
    PCATask.attributeNames = ["kpset_id", "bodyparts_id", "kpms_project_output_dir"] ∧
    ∀ inp : PrepInput, inp.configDirFound = true → inp.videosDirFound = true →
      PrepEffect.generateDjConfig ∈ (PCAPrep.make inp).1 := by
  refine ⟨rfl, ?_⟩
  intro inp hc hv
  unfold PCAPrep.make
  rw [if_neg (by simp [hc]), if_neg (by simp [hv])]
  split
  · split
    · simp
    · split
      · simp
      · simp
  · simp

/-- C6 witness: the amended claim's universal part at a concrete input. -/
theorem pcaTask_attributes_and_unconditional_config_witness :
    PrepEffect.generateDjConfig ∈ (PCAPrep.make prepInputSleap).1 :=
  pcaTask_attributes_and_unconditional_config.2 prepInputSleap rfl rfl

/-- C9 counterexample: for per-video frame rates 30 and 31 the code
inserts `average_frame_rate = int(np.mean([30, 31])) = 30`, which is not
the plain arithmetic mean `30.5`: the claim's "equals the plain
arithmetic mean" fails because of the `int(...)` truncation. -/
theorem average_frame_rate_not_exact_mean :
    (PCAPrep.make prepInputC9).2 =
      some { frame_rates := [30, 31], average_frame_rate := 30 } ∧
    ¬ (((30 : ℤ) : ℚ) = (30 + 31) / 2) := by
  constructor
  · norm_num [PCAPrep.make, prepInputC9, fpsLoop, pyInt]
  · norm_num

/-- C9 (amended): for every `PCAPrep.make` run that inserts a row, the
stored `frame_rates` are the truncated (`int(...)`) per-video frame
rates in video order — one per video, unweighted — and
`average_frame_rate` is the truncation of their plain arithmetic mean
(not the exact mean). -/
theorem average_frame_rate_truncated_mean :
    ∀ (inp : PrepInput) (row : PrepRow),
      (PCAPrep.make inp).2 = some row →
      row.frame_rates = inp.videos.map (fun v => pyInt v.fps) ∧
      row.frame_rates.length = inp.videos.length ∧
      row.average_frame_rate =
        pyInt ((row.frame_rates.map (fun z => (z : ℚ))).sum / row.frame_rates.length) := by
  intro inp row
  unfold PCAPrep.make
  split
  · intro h; exact absurd h (by simp)
  · split
    · intro h; exact absurd h (by simp)
    · split
      · split
        · intro h; exact absurd h (by simp)
        · split
          · intro h; exact absurd h (by simp)
          · rename_i fpsList heq hne
            intro h
            obtain rfl : _ = row := Option.some.inj h
            have hfl := fpsLoop_some_eq inp.videos fpsList heq
            subst hfl
            exact ⟨rfl, by simp, rfl⟩
      · intro h; exact absurd h (by simp)

/-- C9 witness: the amended claim at the concrete 30/31 fps input. -/
theorem average_frame_rate_truncated_mean_witness :
    (PrepRow.mk [30, 31] 30).frame_rates =
      prepInputC9.videos.map (fun v => pyInt v.fps) ∧
    (PrepRow.mk [30, 31] 30).frame_rates.length = prepInputC9.videos.length ∧
    (PrepRow.mk [30, 31] 30).average_frame_rate =
      pyInt (((PrepRow.mk [30, 31] 30).frame_rates.map (fun z => (z : ℚ))).sum /
        (PrepRow.mk [30, 31] 30).frame_rates.length) :=
  average_frame_rate_truncated_mean prepInputC9 (PrepRow.mk [30, 31] 30)
    (by norm_num [PCAPrep.make, prepInputC9, fpsLoop, pyInt])

/-- C4 counterexample: in a store whose only `KeypointSet` has zero
`VideoFile` rows but does have a `PCATask`, the Prep-stage key resolver
returns the key `(1, 1)` as eligible — `PCAPrep` declares no semantic
join over `VideoFile`, its key source is just `PCATask`. -/
theorem keySourcePrep_returns_childless_keypointset :
    (1, 1) ∈ keySourcePrep storeNoVideos ∧ storeNoVideos.videoFiles = [] := by
  exact ⟨by decide, rfl⟩

/-- C4 (amended): the Prep-stage key source is the `PCATask` key set
minus the already-computed `PCAPrep` keys; it does not consult
`VideoFile` rows at all (replacing them changes nothing), so a
`KeypointSet` with zero `VideoFile` rows is returned as eligible
whenever a `PCATask` row exists for it. -/
theorem keySourcePrep_ignores_videoFiles :
    (∀ (s : Store) (vfs : List VideoFileRow),
      keySourcePrep { s with videoFiles := vfs } = keySourcePrep s) ∧
    (1, 1) ∈ keySourcePrep storeNoVideos := by
  exact ⟨fun s vfs => rfl, by decide⟩

/-! ### Claim C5: failed keys leave the store unchanged and stay pending -/

/-- C5: when `PCAPrep.make` raises for a key (any domain error —
unsupported format method, unresolvable path, empty video set), no
`insert1` effect occurs, the stage executor leaves the entity store
unchanged, and the key is still returned by the key resolver on the next
pass. -/
theorem pcaPrep_error_inserts_no_row :
    ∀ (s : Store) (k : PrepKey) (inp : PrepInput),
      prepInput s k = some inp →
      (PCAPrep.make inp).2 = none →
      PrepEffect.insertRow ∉ (PCAPrep.make inp).1 ∧
      runPrepStage s k = s ∧
      (k ∈ keySourcePrep s → k ∈ keySourcePrep (runPrepStage s k)) := by
  intro s k inp hin hmake
  have hnr : runPrepStage s k = s := by
    simp only [runPrepStage, hin, hmake]
  refine ⟨?_, hnr, ?_⟩
  · intro hmem
    exact ((pcaPrep_make_insert_mem inp).mp hmem) hmake
  · intro hks
    rw [hnr]
    exact hks

/-- C5 witness: the childless-KeypointSet store — the Prep computation
fails there (`int(np.mean([]))` raises on the empty video set), the
store is unchanged and `(1, 1)` remains pending. -/
theorem pcaPrep_error_inserts_no_row_witness :
    PrepEffect.insertRow ∉
      (PCAPrep.make { format_method := "deeplabcut", configDirFound := true,
                      videosDirFound := true, videos := [] }).1 ∧
    runPrepStage storeNoVideos (1, 1) = storeNoVideos ∧
    ((1, 1) ∈ keySourcePrep storeNoVideos →
      (1, 1) ∈ keySourcePrep (runPrepStage storeNoVideos (1, 1))) :=
  pcaPrep_error_inserts_no_row storeNoVideos (1, 1)
    { format_method := "deeplabcut", configDirFound := true,
      videosDirFound := true, videos := [] }
    (by simp [prepInput, storeNoVideos])
    (by simp [PCAPrep.make, fpsLoop])

/-! ### Claim C7: side effects precede the row insertion -/

/-- C7: in every stage execution that inserts a row, all external side
effects precede the final `insert1`: `PCAFitting.make` performs
`save_pca` (writing `pca.p`) strictly before inserting its timestamp
row, and `PCAPrep.make` performs `setup_project` and
`generate_kpms_dj_config` strictly before inserting its row; in both
traces `insert1` is the last action and occurs exactly once. -/
theorem side_effects_before_insert :
    (∀ (ok : Bool) (now : ℕ) (row : FitRow),
      (PCAFitting.make ok now).2 = some row →
      ∃ pre, (PCAFitting.make ok now).1 = pre ++ [FitEffect.insertRow] ∧
        FitEffect.insertRow ∉ pre ∧ FitEffect.savePca ∈ pre) ∧
    (∀ (inp : PrepInput) (row : PrepRow),
      (PCAPrep.make inp).2 = some row →
      ∃ pre, (PCAPrep.make inp).1 = pre ++ [PrepEffect.insertRow] ∧
        PrepEffect.insertRow ∉ pre ∧
        PrepEffect.setupProject ∈ pre ∧ PrepEffect.generateDjConfig ∈ pre) := by
  constructor
  · intro ok now row h
    cases ok with
    | false => simp [PCAFitting.make] at h
    | true =>
      refine ⟨[.loadDjConfig, .formatDataCall, .fitPcaCall, .savePca], ?_, by simp, by simp⟩
      simp [PCAFitting.make]
  · intro inp row h
    exact pcaPrep_make_some_shape inp row h

/-- C7 witness: the ordering at a concrete successful fitting run and a
concrete successful Prep run. -/
theorem side_effects_before_insert_witness :
    (∃ pre, (PCAFitting.make true 0).1 = pre ++ [FitEffect.insertRow] ∧
      FitEffect.insertRow ∉ pre ∧ FitEffect.savePca ∈ pre) ∧
    (∃ pre, (PCAPrep.make prepInputC9).1 = pre ++ [PrepEffect.insertRow] ∧
      PrepEffect.insertRow ∉ pre ∧
      PrepEffect.setupProject ∈ pre ∧ PrepEffect.generateDjConfig ∈ pre) :=
  ⟨side_effects_before_insert.1 true 0 { pca_fitting_time := 0 } rfl,
   side_effects_before_insert.2 prepInputC9 (PrepRow.mk [30, 31] 30)
     (by norm_num [PCAPrep.make, prepInputC9, fpsLoop, pyInt])⟩

/-- `prepInput` reads only the manual `KeypointSet` and `VideoFile`
tables. -/
theorem prepInput_congr {s s' : Store} (h1 : s'.keypointSets = s.keypointSets)
    (h2 : s'.videoFiles = s.videoFiles) (k : PrepKey) :
    prepInput s' k = prepInput s k := by
  unfold prepInput
  rw [h1, h2]

/-- `prepFails` is invariant under changes to the derived tables. -/
theorem prepFails_congr {s s' : Store} (h1 : s'.keypointSets = s.keypointSets)
    (h2 : s'.videoFiles = s.videoFiles) (k : PrepKey) :
    prepFails s' k ↔ prepFails s k := by
  unfold prepFails
  rw [prepInput_congr h1 h2]

/-- `fitFails` reads only `pcaPreps` (and the environment). -/
theorem fitFails_congr {env : Env} {s s' : Store}
    (h : s'.pcaPreps = s.pcaPreps) (k : PrepKey) :
    fitFails env s' k ↔ fitFails env s k := by
  unfold fitFails
  rw [h]

/-- The Prep executor either leaves the store unchanged or appends
exactly one `PCAPrep` row for its key. -/
theorem runPrepStage_eq_or (s : Store) (k : PrepKey) :
    runPrepStage s k = s ∨ ∃ row, runPrepStage s k =
      { s with pcaPreps := s.pcaPreps ++ [(k, row)] } := by
  unfold runPrepStage
  cases prepInput s k with
  | none => exact Or.inl rfl
  | some inp =>
    dsimp only
    cases (PCAPrep.make inp).2 with
    | none => exact Or.inl rfl
    | some row => exact Or.inr ⟨row, rfl⟩

/-- The Prep executor changes no table other than `pcaPreps`. -/
theorem runPrepStage_preserves (s : Store) (k : PrepKey) :
    (runPrepStage s k).keypointSets = s.keypointSets ∧
    (runPrepStage s k).videoFiles = s.videoFiles ∧
    (runPrepStage s k).pcaTasks = s.pcaTasks ∧
    (runPrepStage s k).pcaFittings = s.pcaFittings ∧
    (runPrepStage s k).latentDims = s.latentDims := by
  rcases runPrepStage_eq_or s k with h | ⟨row, h⟩ <;>
    rw [h] <;> exact ⟨rfl, rfl, rfl, rfl, rfl⟩

/-- A failing key leaves the store untouched. -/
theorem runPrepStage_of_fails {s : Store} {k : PrepKey} (h : prepFails s k) :
    runPrepStage s k = s := by
  unfold runPrepStage
  cases hin : prepInput s k with
  | none => rfl
  | some inp => simp only [h inp hin]

/-- A succeeding key ends up in the `PCAPrep` key set. -/
theorem mem_prepKeys_of_not_fails {s : Store} {k : PrepKey}
    (h : ¬ prepFails s k) : k ∈ prepKeys (runPrepStage s k) := by
  unfold prepFails at h
  push_neg at h
  obtain ⟨inp, hin, hne⟩ := h
  obtain ⟨row, hrow⟩ := Option.ne_none_iff_exists'.mp hne
  unfold runPrepStage
  simp only [hin, hrow]
  simp [prepKeys]

/-- The `PCAPrep` key list only grows, by appending. -/
theorem prepKeys_runPrepStage (s : Store) (k : PrepKey) :
    prepKeys (runPrepStage s k) = prepKeys s ∨
    prepKeys (runPrepStage s k) = prepKeys s ++ [k] := by
  rcases runPrepStage_eq_or s k with h | ⟨row, h⟩ <;> rw [h]
  · exact Or.inl rfl
  · exact Or.inr (by simp [prepKeys])

/-- A Prep pass changes no table other than `pcaPreps`. -/
theorem prepFold_preserves (keys : List PrepKey) :
    ∀ s : Store,
      (keys.foldl runPrepStage s).keypointSets = s.keypointSets ∧
      (keys.foldl runPrepStage s).videoFiles = s.videoFiles ∧
      (keys.foldl runPrepStage s).pcaTasks = s.pcaTasks ∧
      (keys.foldl runPrepStage s).pcaFittings = s.pcaFittings ∧
      (keys.foldl runPrepStage s).latentDims = s.latentDims := by
  induction keys with
  | nil => exact fun s => ⟨rfl, rfl, rfl, rfl, rfl⟩
  | cons k rest ih =>
    intro s
    obtain ⟨h1, h2, h3, h4, h5⟩ := ih (runPrepStage s k)
    obtain ⟨g1, g2, g3, g4, g5⟩ := runPrepStage_preserves s k
    exact ⟨h1.trans g1, h2.trans g2, h3.trans g3, h4.trans g4, h5.trans g5⟩

/-- A Prep pass only appends to the `PCAPrep` key list. -/
theorem prepFold_keys_extend (keys : List PrepKey) :
    ∀ s : Store, ∃ t, prepKeys (keys.foldl runPrepStage s) = prepKeys s ++ t := by
  induction keys with
  | nil => exact fun s => ⟨[], by simp⟩
  | cons k rest ih =>
    intro s
    obtain ⟨t, ht⟩ := ih (runPrepStage s k)
    rcases prepKeys_runPrepStage s k with h | h
    · exact ⟨t, by rw [List.foldl_cons, ht, h]⟩
    · exact ⟨[k] ++ t, by rw [List.foldl_cons, ht, h]; simp⟩

/-- After a Prep pass, every offered key is either computed or fails in
the pre-pass store. -/
theorem prepFold_complete (keys : List PrepKey) :
    ∀ (s : Store) (k : PrepKey), k ∈ keys →
      k ∈ prepKeys (keys.foldl runPrepStage s) ∨ prepFails s k := by
  induction keys with
  | nil => intro s k hk; simp at hk
  | cons k0 rest ih =>
    intro s k hk
    simp only [List.foldl_cons]
    obtain ⟨p1, p2, -, -, -⟩ := runPrepStage_preserves s k0
    rcases List.mem_cons.mp hk with rfl | hmem
    · by_cases hf : prepFails s k
      · exact Or.inr hf
      · left
        obtain ⟨t, ht⟩ := prepFold_keys_extend rest (runPrepStage s k)
        rw [ht]
        exact List.mem_append_left t (mem_prepKeys_of_not_fails hf)
    · rcases ih (runPrepStage s k0) k hmem with h | h
      · exact Or.inl h
      · exact Or.inr ((prepFails_congr p1 p2 k).mp h)

/-- A Prep pass over keys that all fail is the identity. -/
theorem prepFold_stuck (keys : List PrepKey) (s : Store)
    (h : ∀ k ∈ keys, prepFails s k) : keys.foldl runPrepStage s = s := by
  induction keys with
  | nil => rfl
  | cons k0 rest ih =>
    have h0 : runPrepStage s k0 = s := runPrepStage_of_fails (h k0 (by simp))
    rw [List.foldl_cons, h0]
    exact ih (fun k hk => h k (List.mem_cons_of_mem k0 hk))

/-- The fitting executor either leaves the store unchanged or appends
exactly one `PCAFitting` row for its key. -/
theorem runFitStage_eq_or (env : Env) (s : Store) (k : PrepKey) :
    runFitStage env s k = s ∨ ∃ row, runFitStage env s k =
      { s with pcaFittings := s.pcaFittings ++ [(k, row)] } := by
  unfold runFitStage
  cases s.pcaPreps.find? (fun p => p.1 == k) with
  | none => exact Or.inl rfl
  | some p =>
    dsimp only
    cases (PCAFitting.make (env.fitOk k) env.now).2 with
    | none => exact Or.inl rfl
    | some row => exact Or.inr ⟨row, rfl⟩

/-- The fitting executor changes no table other than `pcaFittings`. -/
theorem runFitStage_preserves (env : Env) (s : Store) (k : PrepKey) :
    (runFitStage env s k).keypointSets = s.keypointSets ∧
    (runFitStage env s k).videoFiles = s.videoFiles ∧
    (runFitStage env s k).pcaTasks = s.pcaTasks ∧
    (runFitStage env s k).pcaPreps = s.pcaPreps ∧
    (runFitStage env s k).latentDims = s.latentDims := by
  rcases runFitStage_eq_or env s k with h | ⟨row, h⟩ <;>
    rw [h] <;> exact ⟨rfl, rfl, rfl, rfl, rfl⟩

/-- A failing key leaves the store untouched (fitting stage). -/
theorem runFitStage_of_fails {env : Env} {s : Store} {k : PrepKey}
    (h : fitFails env s k) : runFitStage env s k = s := by
  unfold runFitStage
  cases hf : s.pcaPreps.find? (fun p => p.1 == k) with
  | none => rfl
  | some p =>
    have hmk := h (by simp [hf])
    simp only [hmk]

/-- A succeeding key ends up in the `PCAFitting` key set. -/
theorem mem_fitKeys_of_not_fails {env : Env} {s : Store} {k : PrepKey}
    (h : ¬ fitFails env s k) : k ∈ fitKeys (runFitStage env s k) := by
  unfold fitFails at h
  push_neg at h
  obtain ⟨hsome, hne⟩ := h
  obtain ⟨p, hp⟩ := Option.isSome_iff_exists.mp hsome
  obtain ⟨row, hrow⟩ := Option.ne_none_iff_exists'.mp hne
  unfold runFitStage
  simp only [hp, hrow]
  simp [fitKeys]

/-- The `PCAFitting` key list only grows, by appending. -/
theorem fitKeys_runFitStage (env : Env) (s : Store) (k : PrepKey) :
    fitKeys (runFitStage env s k) = fitKeys s ∨
    fitKeys (runFitStage env s k) = fitKeys s ++ [k] := by
  rcases runFitStage_eq_or env s k with h | ⟨row, h⟩ <;> rw [h]
  · exact Or.inl rfl
  · exact Or.inr (by simp [fitKeys])

/-- A fitting pass changes no table other than `pcaFittings`. -/
theorem fitFold_preserves (env : Env) (keys : List PrepKey) :
    ∀ s : Store,
      ((keys.foldl (runFitStage env) s).keypointSets = s.keypointSets ∧
        (keys.foldl (runFitStage env) s).videoFiles = s.videoFiles ∧
        (keys.foldl (runFitStage env) s).pcaTasks = s.pcaTasks ∧
        (keys.foldl (runFitStage env) s).pcaPreps = s.pcaPreps ∧
        (keys.foldl (runFitStage env) s).latentDims = s.latentDims) := by
  induction keys with
  | nil => exact fun s => ⟨rfl, rfl, rfl, rfl, rfl⟩
  | cons k rest ih =>
    intro s
    obtain ⟨h1, h2, h3, h4, h5⟩ := ih (runFitStage env s k)
    obtain ⟨g1, g2, g3, g4, g5⟩ := runFitStage_preserves env s k
    exact ⟨h1.trans g1, h2.trans g2, h3.trans g3, h4.trans g4, h5.trans g5⟩

/-- A fitting pass only appends to the `PCAFitting` key list. -/
theorem fitFold_keys_extend (env : Env) (keys : List PrepKey) :
    ∀ s : Store, ∃ t,
      fitKeys (keys.foldl (runFitStage env) s) = fitKeys s ++ t := by
  induction keys with
  | nil => exact fun s => ⟨[], by simp⟩
  | cons k rest ih =>
    intro s
    obtain ⟨t, ht⟩ := ih (runFitStage env s k)
    rcases fitKeys_runFitStage env s k with h | h
    · exact ⟨t, by rw [List.foldl_cons, ht, h]⟩
    · exact ⟨[k] ++ t, by rw [List.foldl_cons, ht, h]; simp⟩

/-- After a fitting pass, every offered key is either computed or fails
in the pre-pass store. -/
theorem fitFold_complete (env : Env) (keys : List PrepKey) :
    ∀ (s : Store) (k : PrepKey), k ∈ keys →
      k ∈ fitKeys (keys.foldl (runFitStage env) s) ∨ fitFails env s k := by
  induction keys with
  | nil => intro s k hk; simp at hk
  | cons k0 rest ih =>
    intro s k hk
    simp only [List.foldl_cons]
    obtain ⟨-, -, -, p4, -⟩ := runFitStage_preserves env s k0
    rcases List.mem_cons.mp hk with rfl | hmem
    · by_cases hf : fitFails env s k
      · exact Or.inr hf
      · left
        obtain ⟨t, ht⟩ := fitFold_keys_extend env rest (runFitStage env s k)
        rw [ht]
        exact List.mem_append_left t (mem_fitKeys_of_not_fails hf)
    · rcases ih (runFitStage env s k0) k hmem with h | h
      · exact Or.inl h
      · exact Or.inr ((fitFails_congr p4 k).mp h)

/-- A fitting pass over keys that all fail is the identity. -/
theorem fitFold_stuck (env : Env) (keys : List PrepKey) (s : Store)
    (h : ∀ k ∈ keys, fitFails env s k) :
    keys.foldl (runFitStage env) s = s := by
  induction keys with
  | nil => rfl
  | cons k0 rest ih =>
    have h0 : runFitStage env s k0 = s := runFitStage_of_fails (h k0 (by simp))
    rw [List.foldl_cons, h0]
    exact ih (fun k hk => h k (List.mem_cons_of_mem k0 hk))

/-- The latent-dimension executor either leaves the store unchanged or
appends exactly one `LatentDimension` row for its key. -/
theorem runLatentStage_eq_or (env : Env) (s : Store) (k : PrepKey) :
    runLatentStage env s k = s ∨ ∃ row, runLatentStage env s k =
      { s with latentDims := s.latentDims ++ [(k, row)] } := by
  unfold runLatentStage
  cases env.explainedVarianceRatio k with
  | none => exact Or.inl rfl
  | some evr =>
    dsimp only
    cases LatentDimension.make (cumsum evr) with
    | none => exact Or.inl rfl
    | some row => exact Or.inr ⟨row, rfl⟩

/-- The latent-dimension executor changes no table other than
`latentDims`. -/
theorem runLatentStage_preserves (env : Env) (s : Store) (k : PrepKey) :
    (runLatentStage env s k).keypointSets = s.keypointSets ∧
    (runLatentStage env s k).videoFiles = s.videoFiles ∧
    (runLatentStage env s k).pcaTasks = s.pcaTasks ∧
    (runLatentStage env s k).pcaPreps = s.pcaPreps ∧
    (runLatentStage env s k).pcaFittings = s.pcaFittings := by
  rcases runLatentStage_eq_or env s k with h | ⟨row, h⟩ <;>
    rw [h] <;> exact ⟨rfl, rfl, rfl, rfl, rfl⟩

/-- A failing key leaves the store untouched (latent stage). -/
theorem runLatentStage_of_fails {env : Env} {s : Store} {k : PrepKey}
    (h : latentFails env k) : runLatentStage env s k = s := by
  unfold runLatentStage
  cases he : env.explainedVarianceRatio k with
  | none => rfl
  | some evr => simp only [h evr he]

/-- A succeeding key ends up in the `LatentDimension` key set. -/
theorem mem_latentKeys_of_not_fails {env : Env} {s : Store} {k : PrepKey}
    (h : ¬ latentFails env k) : k ∈ latentKeys (runLatentStage env s k) := by
  unfold latentFails at h
  push_neg at h
  obtain ⟨evr, he, hne⟩ := h
  obtain ⟨row, hrow⟩ := Option.ne_none_iff_exists'.mp hne
  unfold runLatentStage
  simp only [he, hrow]
  simp [latentKeys]

/-- The `LatentDimension` key list only grows, by appending. -/
theorem latentKeys_runLatentStage (env : Env) (s : Store) (k : PrepKey) :
    latentKeys (runLatentStage env s k) = latentKeys s ∨
    latentKeys (runLatentStage env s k) = latentKeys s ++ [k] := by
  rcases runLatentStage_eq_or env s k with h | ⟨row, h⟩ <;> rw [h]
  · exact Or.inl rfl
  · exact Or.inr (by simp [latentKeys])

/-- A latent pass changes no table other than `latentDims`. -/
theorem latentFold_preserves (env : Env) (keys : List PrepKey) :
    ∀ s : Store,
      ((keys.foldl (runLatentStage env) s).keypointSets = s.keypointSets ∧
        (keys.foldl (runLatentStage env) s).videoFiles = s.videoFiles ∧
        (keys.foldl (runLatentStage env) s).pcaTasks = s.pcaTasks ∧
        (keys.foldl (runLatentStage env) s).pcaPreps = s.pcaPreps ∧
        (keys.foldl (runLatentStage env) s).pcaFittings = s.pcaFittings) := by
  induction keys with
  | nil => exact fun s => ⟨rfl, rfl, rfl, rfl, rfl⟩
  | cons k rest ih =>
    intro s
    obtain ⟨h1, h2, h3, h4, h5⟩ := ih (runLatentStage env s k)
    obtain ⟨g1, g2, g3, g4, g5⟩ := runLatentStage_preserves env s k
    exact ⟨h1.trans g1, h2.trans g2, h3.trans g3, h4.trans g4, h5.trans g5⟩

/-- A latent pass only appends to the `LatentDimension` key list. -/
theorem latentFold_keys_extend (env : Env) (keys : List PrepKey) :
    ∀ s : Store, ∃ t,
      latentKeys (keys.foldl (runLatentStage env) s) = latentKeys s ++ t := by
  induction keys with
  | nil => exact fun s => ⟨[], by simp⟩
  | cons k rest ih =>
    intro s
    obtain ⟨t, ht⟩ := ih (runLatentStage env s k)
    rcases latentKeys_runLatentStage env s k with h | h
    · exact ⟨t, by rw [List.foldl_cons, ht, h]⟩
    · exact ⟨[k] ++ t, by rw [List.foldl_cons, ht, h]; simp⟩

/-- After a latent pass, every offered key is either computed or fails.
`latentFails` depends only on the environment, so no store transfer is
needed. -/
theorem latentFold_complete (env : Env) (keys : List PrepKey) :
    ∀ (s : Store) (k : PrepKey), k ∈ keys →
      k ∈ latentKeys (keys.foldl (runLatentStage env) s) ∨ latentFails env k := by
  induction keys with
  | nil => intro s k hk; simp at hk
  | cons k0 rest ih =>
    intro s k hk
    simp only [List.foldl_cons]
    rcases List.mem_cons.mp hk with rfl | hmem
    · by_cases hf : latentFails env k
      · exact Or.inr hf
      · left
        obtain ⟨t, ht⟩ := latentFold_keys_extend env rest (runLatentStage env s k)
        rw [ht]
        exact List.mem_append_left t (mem_latentKeys_of_not_fails hf)
    · exact ih (runLatentStage env s k0) k hmem

/-- A latent pass over keys that all fail is the identity. -/
theorem latentFold_stuck (env : Env) (keys : List PrepKey) (s : Store)
    (h : ∀ k ∈ keys, latentFails env k) :
    keys.foldl (runLatentStage env) s = s := by
  induction keys with
  | nil => rfl
  | cons k0 rest ih =>
    have h0 : runLatentStage env s k0 = s := runLatentStage_of_fails (h k0 (by simp))
    rw [List.foldl_cons, h0]
    exact ih (fun k hk => h k (List.mem_cons_of_mem k0 hk))

/-- Membership in the Prep key source: a `PCATask` key not yet in
`PCAPrep`. -/
theorem mem_keySourcePrep {s : Store} {k : PrepKey} :
    k ∈ keySourcePrep s ↔ k ∈ taskKeys s ∧ k ∉ prepKeys s := by
  unfold keySourcePrep
  rw [List.mem_filter]
  simp

/-- Membership in the fitting key source. -/
theorem mem_keySourceFit {s : Store} {k : PrepKey} :
    k ∈ keySourceFit s ↔ k ∈ prepKeys s ∧ k ∉ fitKeys s := by
  unfold keySourceFit
  rw [List.mem_filter]
  simp

/-- Membership in the latent key source. -/
theorem mem_keySourceLatent {s : Store} {k : PrepKey} :
    k ∈ keySourceLatent s ↔ k ∈ fitKeys s ∧ k ∉ latentKeys s := by
  unfold keySourceLatent
  rw [List.mem_filter]
  simp

/-- `taskKeys` depends only on the `pcaTasks` table. -/
theorem taskKeys_congr {s s' : Store} (h : s'.pcaTasks = s.pcaTasks) :
    taskKeys s' = taskKeys s := by
  unfold taskKeys
  rw [h]

/-- `prepKeys` depends only on the `pcaPreps` table. -/
theorem prepKeys_congr {s s' : Store} (h : s'.pcaPreps = s.pcaPreps) :
    prepKeys s' = prepKeys s := by
  unfold prepKeys
  rw [h]

/-- `fitKeys` depends only on the `pcaFittings` table. -/
theorem fitKeys_congr {s s' : Store} (h : s'.pcaFittings = s.pcaFittings) :
    fitKeys s' = fitKeys s := by
  unfold fitKeys
  rw [h]

/-- Pass-level restatement of `prepFold_preserves`. -/
theorem prepPass_preserves (s : Store) :
    (prepPass s).keypointSets = s.keypointSets ∧
    (prepPass s).videoFiles = s.videoFiles ∧
    (prepPass s).pcaTasks = s.pcaTasks ∧
    (prepPass s).pcaFittings = s.pcaFittings ∧
    (prepPass s).latentDims = s.latentDims :=
  prepFold_preserves (keySourcePrep s) s

/-- Pass-level restatement of `prepFold_keys_extend`. -/
theorem prepPass_keys_extend (s : Store) :
    ∃ t, prepKeys (prepPass s) = prepKeys s ++ t :=
  prepFold_keys_extend (keySourcePrep s) s

/-- Pass-level restatement of `prepFold_complete`. -/
theorem prepPass_complete (s : Store) (k : PrepKey) (hk : k ∈ keySourcePrep s) :
    k ∈ prepKeys (prepPass s) ∨ prepFails s k :=
  prepFold_complete (keySourcePrep s) s k hk

/-- Pass-level restatement of `prepFold_stuck`. -/
theorem prepPass_stuck (s : Store)
    (h : ∀ k ∈ keySourcePrep s, prepFails s k) : prepPass s = s :=
  prepFold_stuck (keySourcePrep s) s h

/-- Pass-level restatement of `fitFold_preserves`. -/
theorem fitPass_preserves (env : Env) (s : Store) :
    (fitPass env s).keypointSets = s.keypointSets ∧
    (fitPass env s).videoFiles = s.videoFiles ∧
    (fitPass env s).pcaTasks = s.pcaTasks ∧
    (fitPass env s).pcaPreps = s.pcaPreps ∧
    (fitPass env s).latentDims = s.latentDims :=
  fitFold_preserves env (keySourceFit s) s

/-- Pass-level restatement of `fitFold_keys_extend`. -/
theorem fitPass_keys_extend (env : Env) (s : Store) :
    ∃ t, fitKeys (fitPass env s) = fitKeys s ++ t :=
  fitFold_keys_extend env (keySourceFit s) s

/-- Pass-level restatement of `fitFold_complete`. -/
theorem fitPass_complete (env : Env) (s : Store) (k : PrepKey)
    (hk : k ∈ keySourceFit s) :
    k ∈ fitKeys (fitPass env s) ∨ fitFails env s k :=
  fitFold_complete env (keySourceFit s) s k hk

/-- Pass-level restatement of `fitFold_stuck`. -/
theorem fitPass_stuck (env : Env) (s : Store)
    (h : ∀ k ∈ keySourceFit s, fitFails env s k) : fitPass env s = s :=
  fitFold_stuck env (keySourceFit s) s h

/-- Pass-level restatement of `latentFold_preserves`. -/
theorem latentPass_preserves (env : Env) (s : Store) :
    (latentPass env s).keypointSets = s.keypointSets ∧
    (latentPass env s).videoFiles = s.videoFiles ∧
    (latentPass env s).pcaTasks = s.pcaTasks ∧
    (latentPass env s).pcaPreps = s.pcaPreps ∧
    (latentPass env s).pcaFittings = s.pcaFittings :=
  latentFold_preserves env (keySourceLatent s) s

/-- Pass-level restatement of `latentFold_keys_extend`. -/
theorem latentPass_keys_extend (env : Env) (s : Store) :
    ∃ t, latentKeys (latentPass env s) = latentKeys s ++ t :=
  latentFold_keys_extend env (keySourceLatent s) s

/-- Pass-level restatement of `latentFold_complete`. -/
theorem latentPass_complete (env : Env) (s : Store) (k : PrepKey)
    (hk : k ∈ keySourceLatent s) :
    k ∈ latentKeys (latentPass env s) ∨ latentFails env k :=
  latentFold_complete env (keySourceLatent s) s k hk

/-- Pass-level restatement of `latentFold_stuck`. -/
theorem latentPass_stuck (env : Env) (s : Store)
    (h : ∀ k ∈ keySourceLatent s, latentFails env k) : latentPass env s = s :=
  latentFold_stuck env (keySourceLatent s) s h

/-- C8: running the Population Driver a second time with no new upstream
data (same manual tables, same run-invariant environment) is idempotent:
the second run inserts no row and changes no existing row — for each
stage, every key its resolver still returns already failed
deterministically in the first run and fails again, and every key
computed in the first run is excluded by the resolver. -/
theorem populateOnce_idempotent (env : Env) (s : Store) :
    populateOnce env (populateOnce env s) = populateOnce env s := by
  show latentPass env (fitPass env (prepPass (latentPass env (fitPass env (prepPass s))))) =
    latentPass env (fitPass env (prepPass s))
  obtain ⟨p1, p2, p3, p4, p5⟩ := prepPass_preserves s
  obtain ⟨f1, f2, f3, f4, f5⟩ := fitPass_preserves env (prepPass s)
  obtain ⟨l1, l2, l3, l4, l5⟩ := latentPass_preserves env (fitPass env (prepPass s))
  have htk : taskKeys (latentPass env (fitPass env (prepPass s))) = taskKeys s :=
    (taskKeys_congr l3).trans ((taskKeys_congr f3).trans (taskKeys_congr p3))
  have hpp : (latentPass env (fitPass env (prepPass s))).pcaPreps = (prepPass s).pcaPreps :=
    l4.trans f4
  have hpk : prepKeys (latentPass env (fitPass env (prepPass s))) = prepKeys (prepPass s) :=
    prepKeys_congr hpp
  have hfk : fitKeys (latentPass env (fitPass env (prepPass s))) =
      fitKeys (fitPass env (prepPass s)) :=
    fitKeys_congr l5
  have hks : (latentPass env (fitPass env (prepPass s))).keypointSets = s.keypointSets :=
    l1.trans (f1.trans p1)
  have hvf : (latentPass env (fitPass env (prepPass s))).videoFiles = s.videoFiles :=
    l2.trans (f2.trans p2)
  have hstep1 : prepPass (latentPass env (fitPass env (prepPass s))) =
      latentPass env (fitPass env (prepPass s)) := by
    apply prepPass_stuck
    intro k hk
    rw [mem_keySourcePrep] at hk
    obtain ⟨hkt, hkp⟩ := hk
    rw [htk] at hkt
    rw [hpk] at hkp
    obtain ⟨t, hpre⟩ := prepPass_keys_extend s
    have hkps : k ∉ prepKeys s := fun hmem =>
      hkp (by rw [hpre]; exact List.mem_append_left t hmem)
    rcases prepPass_complete s k (mem_keySourcePrep.mpr ⟨hkt, hkps⟩) with h | h
    · exact absurd h hkp
    · exact (prepFails_congr hks hvf k).mpr h
  have hstep2 : fitPass env (latentPass env (fitPass env (prepPass s))) =
      latentPass env (fitPass env (prepPass s)) := by
    apply fitPass_stuck
    intro k hk
    rw [mem_keySourceFit] at hk
    obtain ⟨hkp, hkf⟩ := hk
    rw [hpk] at hkp
    rw [hfk] at hkf
    obtain ⟨t, hpre⟩ := fitPass_keys_extend env (prepPass s)
    have hkf1 : k ∉ fitKeys (prepPass s) := fun hmem =>
      hkf (by rw [hpre]; exact List.mem_append_left t hmem)
    rcases fitPass_complete env (prepPass s) k (mem_keySourceFit.mpr ⟨hkp, hkf1⟩) with h | h
    · exact absurd h hkf
    · exact (fitFails_congr hpp k).mpr h
  have hstep3 : latentPass env (latentPass env (fitPass env (prepPass s))) =
      latentPass env (fitPass env (prepPass s)) := by
    apply latentPass_stuck
    intro k hk
    rw [mem_keySourceLatent] at hk
    obtain ⟨hkf, hkl⟩ := hk
    rw [hfk] at hkf
    obtain ⟨t, hpre⟩ := latentPass_keys_extend env (fitPass env (prepPass s))
    have hkl2 : k ∉ latentKeys (fitPass env (prepPass s)) := fun hmem =>
      hkl (by rw [hpre]; exact List.mem_append_left t hmem)
    rcases latentPass_complete env (fitPass env (prepPass s)) k
        (mem_keySourceLatent.mpr ⟨hkf, hkl2⟩) with h | h
    · exact absurd h hkl
    · exact h
  rw [hstep1, hstep2, hstep3]

end ElementMoseq
